import Mathlib

/-!
# MasterMaterialSystem Blueprint library

A shallow embedding of `UMasterMaterialSystemBPLibrary`
(`Private/MasterMaterialSystemBPLibrary.cpp`): the two Blueprint-callable
operations `RemoveEUWFromUserPrefs` and `RegisterMetadataTags`, run on an
explicit host state that stands for the engine singletons they reach through
global accessors.
-/

set_option autoImplicit false

namespace MasterMaterialSystem

/-! ## Engine types used by the library -/

/-- Modelled from the spec: the engine's `FName` is not part of the plugin's
sources. A tag name is an interned identifier, compared by identity; `text` is
the interned text that identifies it. -/
structure FName where
  text : String
deriving DecidableEq, Repr

/-- Modelled from the spec: the engine's empty/none sentinel name. -/
def NAME_None : FName := ⟨""⟩

/-- Modelled from the spec: `FName::IsNone`, the test for the empty/none
sentinel. -/
def FName.IsNone (n : FName) : Bool := decide (n = NAME_None)

/-- Modelled from the spec: the engine's `TSet`, a set of unique elements whose
insertion order is irrelevant. -/
abbrev TSet (α : Type) : Type := Finset α

/-- Modelled from the spec: `TSet::Contains`. -/
def TSet.Contains {α : Type} [DecidableEq α] (s : TSet α) (x : α) : Bool := decide (x ∈ s)

/-- Modelled from the spec: `TSet::Add`. -/
def TSet.Add {α : Type} [DecidableEq α] (s : TSet α) (x : α) : TSet α := insert x s

/-- Modelled from the spec: a widget reference, an externally-owned handle to
an editor tool instance, compared by identity. -/
structure WidgetRef where
  handle : Nat
deriving DecidableEq, Repr

/-- Modelled from the spec: the engine's `TArray::Remove` on the ordered
loaded-UI collection. It takes the given reference out of the collection,
wherever it occurs, and keeps the remaining entries in place. -/
def TArray.Remove {α : Type} [DecidableEq α] : List α → α → List α
  | [], _ => []
  | x :: rest, item =>
    if x = item then TArray.Remove rest item else x :: TArray.Remove rest item

/-- Modelled from the spec: the Editor Utility subsystem, which owns the ordered
collection of loaded widget references. -/
structure UEditorUtilitySubsystem where
  LoadedUIs : List WidgetRef
deriving DecidableEq, Repr

/-- Modelled from the spec: the editor engine object behind `GEditor`; its
subsystem collection may or may not hold the Editor Utility subsystem. -/
structure UEditorEngine where
  EditorUtilitySubsystem : Option UEditorUtilitySubsystem
deriving DecidableEq, Repr

/-- The explicit host state: the process-wide singletons the library reaches.
`ConfigWrites` is the sequence of configuration saves, newest first; each entry
is the loaded-UI collection that was written. -/
structure Host where
  MetaDataTagsForAssetRegistry : TSet FName
  GEditor : Option UEditorEngine
  ConfigWrites : List (List WidgetRef)
deriving DecidableEq

/-- `GEditor->GetEditorSubsystem<UEditorUtilitySubsystem>()`, as an optional
value: absent when the editor or the subsystem is. -/
def Host.GetEditorSubsystem (h : Host) : Option UEditorUtilitySubsystem :=
  h.GEditor.bind (fun ed => ed.EditorUtilitySubsystem)

/-- The persisted configuration: the newest configuration write, if any. -/
def Host.PersistedLoadedUIs (h : Host) : Option (List WidgetRef) :=
  h.ConfigWrites.head?

/-! ## The library -/

/-- The body of the loop of `RegisterMetadataTags`, for one `Tag`. -/
def RegisterMetadataTags.step (GlobalTagsForAssetRegistry : TSet FName) (Tag : FName) :
    TSet FName :=
  if !Tag.IsNone then
    if !GlobalTagsForAssetRegistry.Contains Tag then
      GlobalTagsForAssetRegistry.Add Tag
    else GlobalTagsForAssetRegistry
  else GlobalTagsForAssetRegistry

/-- `UMasterMaterialSystemBPLibrary::RegisterMetadataTags`: the loop over
`Tags`, on the global tag set of the host. -/
def RegisterMetadataTags (h : Host) (Tags : List FName) : Host :=
  { h with
    MetaDataTagsForAssetRegistry :=
      Tags.foldl RegisterMetadataTags.step h.MetaDataTagsForAssetRegistry }

/-- `UMasterMaterialSystemBPLibrary::RemoveEUWFromUserPrefs`: look the subsystem
up, remove the widget from `LoadedUIs`, save the configuration. Dereferencing an
absent editor or subsystem is a fault, `none`. -/
def RemoveEUWFromUserPrefs (h : Host) (EditorWidget : WidgetRef) : Option Host :=
  match h.GEditor with
  | none => none
  | some ed =>
    match ed.EditorUtilitySubsystem with
    | none => none
    | some EUS =>
      let EUS1 : UEditorUtilitySubsystem :=
        { EUS with LoadedUIs := TArray.Remove EUS.LoadedUIs EditorWidget }
      some { h with
        GEditor := some { ed with EditorUtilitySubsystem := some EUS1 }
        ConfigWrites := EUS1.LoadedUIs :: h.ConfigWrites }

/-! ## Sample states -/

/-- A host whose global tag set holds only "Category", with no editor. -/
def categoryHost : Host := ⟨{⟨"Category"⟩}, none, []⟩

/-- The sample input "Rarity", "", "Category", "Tier". -/
def sampleTags : List FName := [⟨"Rarity"⟩, ⟨""⟩, ⟨"Category"⟩, ⟨"Tier"⟩]

/-- A host with a running editor whose subsystem has four loaded UIs, the
widget 1 twice; nothing has been saved yet. -/
def editorHost : Host :=
  ⟨{⟨"Category"⟩}, some ⟨some ⟨[⟨1⟩, ⟨2⟩, ⟨1⟩, ⟨3⟩]⟩⟩, []⟩

/-- The state `editorHost` is left in once widget 1 is removed and the
configuration saved. -/
def editorHostRemoved : Host :=
  ⟨{⟨"Category"⟩}, some ⟨some ⟨[⟨2⟩, ⟨3⟩]⟩⟩, [[⟨2⟩, ⟨3⟩]]⟩

/-- A host whose editor has no Editor Utility subsystem. -/
def noSubsystemHost : Host := ⟨{⟨"Category"⟩}, some ⟨none⟩, []⟩

/-! ## Helper lemmas -/

theorem step_mem (G : TSet FName) (Tag n : FName) :
    n ∈ RegisterMetadataTags.step G Tag ↔ n ∈ G ∨ (n = Tag ∧ Tag ≠ NAME_None) := by
  unfold RegisterMetadataTags.step FName.IsNone TSet.Contains TSet.Add
  by_cases h1 : Tag = NAME_None
  · simp [h1]
  · by_cases h2 : Tag ∈ G
    · simp [h1, h2]
      intro h; subst h; exact h2
    · simp [h1, h2, or_comm]

theorem foldl_step_mem (Tags : List FName) (G : TSet FName) (n : FName) :
    n ∈ Tags.foldl RegisterMetadataTags.step G ↔ n ∈ G ∨ (n ∈ Tags ∧ n ≠ NAME_None) := by
  induction Tags generalizing G with
  | nil => simp
  | cons t ts ih =>
    rw [List.foldl_cons, ih, step_mem]
    constructor
    · rintro ((h | ⟨rfl, h⟩) | ⟨h, h'⟩)
      · exact Or.inl h
      · exact Or.inr ⟨List.mem_cons_self _ _, h⟩
      · exact Or.inr ⟨List.mem_cons_of_mem _ h, h'⟩
    · rintro (h | ⟨h, h'⟩)
      · exact Or.inl (Or.inl h)
      · rcases List.mem_cons.mp h with rfl | h
        · exact Or.inl (Or.inr ⟨rfl, h'⟩)
        · exact Or.inr ⟨h, h'⟩

theorem register_mem (h : Host) (Tags : List FName) (n : FName) :
    n ∈ (RegisterMetadataTags h Tags).MetaDataTagsForAssetRegistry ↔
      n ∈ h.MetaDataTagsForAssetRegistry ∨ (n ∈ Tags ∧ n ≠ NAME_None) :=
  foldl_step_mem Tags h.MetaDataTagsForAssetRegistry n

theorem foldl_step_eq_union (Tags : List FName) (G : TSet FName) :
    Tags.foldl RegisterMetadataTags.step G =
      G ∪ (Tags.filter (fun t => !t.IsNone)).toFinset := by
  ext n
  rw [foldl_step_mem]
  simp [FName.IsNone]

theorem register_tags (h : Host) (Tags : List FName) :
    (RegisterMetadataTags h Tags).MetaDataTagsForAssetRegistry =
      Tags.foldl RegisterMetadataTags.step h.MetaDataTagsForAssetRegistry := rfl

theorem register_GEditor (h : Host) (Tags : List FName) :
    (RegisterMetadataTags h Tags).GEditor = h.GEditor := rfl

theorem register_ConfigWrites (h : Host) (Tags : List FName) :
    (RegisterMetadataTags h Tags).ConfigWrites = h.ConfigWrites := rfl

theorem Host.ext_fields (a b : Host)
    (h1 : a.MetaDataTagsForAssetRegistry = b.MetaDataTagsForAssetRegistry)
    (h2 : a.GEditor = b.GEditor) (h3 : a.ConfigWrites = b.ConfigWrites) : a = b := by
  cases a; cases b; simp_all

theorem remove_not_mem {α : Type} [DecidableEq α] (xs : List α) (item : α) :
    item ∉ TArray.Remove xs item := by
  induction xs with
  | nil => simp [TArray.Remove]
  | cons x rest ih =>
    unfold TArray.Remove
    by_cases hx : x = item
    · simpa [hx] using ih
    · simp only [hx, if_false, List.mem_cons, not_or]
      exact ⟨fun e => hx e.symm, ih⟩

theorem remove_eq_filter {α : Type} [DecidableEq α] (xs : List α) (item : α) :
    TArray.Remove xs item = xs.filter (fun x => decide (x ≠ item)) := by
  induction xs with
  | nil => simp [TArray.Remove]
  | cons x rest ih =>
    unfold TArray.Remove
    by_cases hx : x = item
    · simp [hx, ih]
    · simp [hx, ih]

theorem remove_sublist {α : Type} [DecidableEq α] (xs : List α) (item : α) :
    (TArray.Remove xs item).Sublist xs := by
  rw [remove_eq_filter]
  exact List.filter_sublist xs

theorem remove_count {α : Type} [DecidableEq α] (xs : List α) (item x : α) (hx : x ≠ item) :
    (TArray.Remove xs item).count x = xs.count x := by
  induction xs with
  | nil => simp [TArray.Remove]
  | cons y rest ih =>
    unfold TArray.Remove
    by_cases hy : y = item
    · subst hy
      rw [if_pos rfl, ih, List.count_cons_of_ne hx]
    · simp only [hy, if_false, List.count_cons, ih]

theorem remove_of_not_mem {α : Type} [DecidableEq α] (xs : List α) (item : α)
    (h : item ∉ xs) : TArray.Remove xs item = xs := by
  induction xs with
  | nil => simp [TArray.Remove]
  | cons x rest ih =>
    unfold TArray.Remove
    have hx : x ≠ item := fun e => h (by simp [e])
    have hr : item ∉ rest := fun e => h (List.mem_cons_of_mem _ e)
    simp [hx, ih hr]

theorem remove_of_lookup (h : Host) (w : WidgetRef) (EUS : UEditorUtilitySubsystem)
    (hs : h.GetEditorSubsystem = some EUS) :
    RemoveEUWFromUserPrefs h w = some
      { h with
        GEditor := some ⟨some ⟨TArray.Remove EUS.LoadedUIs w⟩⟩
        ConfigWrites := TArray.Remove EUS.LoadedUIs w :: h.ConfigWrites } := by
  unfold Host.GetEditorSubsystem at hs
  unfold RemoveEUWFromUserPrefs
  cases hg : h.GEditor with
  | none => simp [hg] at hs
  | some ed =>
    rw [hg] at hs
    simp only [Option.some_bind] at hs
    simp [hs]

theorem remove_eq_none_iff (h : Host) (w : WidgetRef) :
    RemoveEUWFromUserPrefs h w = none ↔ h.GetEditorSubsystem = none := by
  unfold Host.GetEditorSubsystem RemoveEUWFromUserPrefs
  cases hg : h.GEditor with
  | none => simp
  | some ed =>
    cases hs : ed.EditorUtilitySubsystem with
    | none => simp [hs]
    | some EUS => simp [hs]

/-! ## Tag registration -/

/-- C1: after `RegisterMetadataTags h Tags` the global tag set is the prior set
united with the names of `Tags` that are not the none sentinel; a name is in the
result exactly when it was in the prior set or occurs in `Tags` and is not none.
The prior set with only "Category" and the input "Rarity", "", "Category",
"Tier" give the set of "Category", "Rarity" and "Tier". -/
theorem RegisterMetadataTags_eq_union :
    (∀ (h : Host) (Tags : List FName),
      (RegisterMetadataTags h Tags).MetaDataTagsForAssetRegistry =
        h.MetaDataTagsForAssetRegistry ∪ (Tags.filter (fun t => !t.IsNone)).toFinset) ∧
    (∀ (h : Host) (Tags : List FName) (n : FName),
      n ∈ (RegisterMetadataTags h Tags).MetaDataTagsForAssetRegistry ↔
        n ∈ h.MetaDataTagsForAssetRegistry ∨ (n ∈ Tags ∧ n.IsNone = false)) ∧
    (RegisterMetadataTags ⟨{⟨"Category"⟩}, none, []⟩
        [⟨"Rarity"⟩, ⟨""⟩, ⟨"Category"⟩, ⟨"Tier"⟩]).MetaDataTagsForAssetRegistry
      = {⟨"Category"⟩, ⟨"Rarity"⟩, ⟨"Tier"⟩} := by
  refine ⟨fun h Tags => foldl_step_eq_union Tags _, fun h Tags n => ?_, by decide⟩
  rw [register_mem]
  simp [FName.IsNone]

/-- C2, as stated, fails: a prior global tag set that already holds the none
sentinel still holds it after `RegisterMetadataTags`. -/
theorem RegisterMetadataTags_none_survives :
    NAME_None ∈ (RegisterMetadataTags ⟨{NAME_None, ⟨"Category"⟩}, none, []⟩
      [⟨"Rarity"⟩, ⟨""⟩]).MetaDataTagsForAssetRegistry := by
  decide

/-- C2, amended: when the prior global tag set does not contain the none
sentinel, the global tag set after `RegisterMetadataTags` does not contain it
either, for every input sequence. -/
theorem RegisterMetadataTags_none_not_mem (h : Host) (Tags : List FName)
    (hS : NAME_None ∉ h.MetaDataTagsForAssetRegistry) :
    NAME_None ∉ (RegisterMetadataTags h Tags).MetaDataTagsForAssetRegistry := by
  rw [register_mem]
  rintro (h1 | ⟨_, h2⟩)
  · exact hS h1
  · exact h2 rfl

theorem RegisterMetadataTags_none_not_mem_witness :
    NAME_None ∉ categoryHost.MetaDataTagsForAssetRegistry ∧
    NAME_None ∉ (RegisterMetadataTags categoryHost sampleTags).MetaDataTagsForAssetRegistry :=
  ⟨by decide, RegisterMetadataTags_none_not_mem categoryHost sampleTags (by decide)⟩

/-- C3: `RegisterMetadataTags` is idempotent: registering the same sequence
twice in a row leaves the same host state, and so the same global tag set, as
registering it once. -/
theorem RegisterMetadataTags_idempotent (h : Host) (Tags : List FName) :
    RegisterMetadataTags (RegisterMetadataTags h Tags) Tags = RegisterMetadataTags h Tags := by
  apply Host.ext_fields
  · ext n
    simp only [register_mem]
    tauto
  · rfl
  · rfl

/-- C4: the result of `RegisterMetadataTags` depends only on the set of names in
its input: two input sequences with the same members (a permutation, or a
different number of repetitions) give the same resulting state. -/
theorem RegisterMetadataTags_congr (h : Host) (Tags₁ Tags₂ : List FName)
    (hT : ∀ n, n ∈ Tags₁ ↔ n ∈ Tags₂) :
    RegisterMetadataTags h Tags₁ = RegisterMetadataTags h Tags₂ := by
  apply Host.ext_fields
  · ext n
    simp only [register_mem, hT]
  · rfl
  · rfl

theorem RegisterMetadataTags_congr_witness :
    (∀ n : FName, n ∈ [(⟨"Rarity"⟩ : FName), ⟨"Tier"⟩, ⟨""⟩] ↔
      n ∈ [(⟨"Tier"⟩ : FName), ⟨""⟩, ⟨"Rarity"⟩, ⟨"Tier"⟩, ⟨"Rarity"⟩]) ∧
    RegisterMetadataTags categoryHost [⟨"Rarity"⟩, ⟨"Tier"⟩, ⟨""⟩] =
      RegisterMetadataTags categoryHost [⟨"Tier"⟩, ⟨""⟩, ⟨"Rarity"⟩, ⟨"Tier"⟩, ⟨"Rarity"⟩] :=
  ⟨by intro n; simp only [List.mem_cons, List.mem_singleton]; tauto,
   RegisterMetadataTags_congr categoryHost
     [⟨"Rarity"⟩, ⟨"Tier"⟩, ⟨""⟩] [⟨"Tier"⟩, ⟨""⟩, ⟨"Rarity"⟩, ⟨"Tier"⟩, ⟨"Rarity"⟩]
     (by intro n; simp only [List.mem_cons, List.mem_singleton]; tauto)⟩

/-- C5: `RegisterMetadataTags` is append-only: every name of the prior global
tag set is still in the global tag set after the call. -/
theorem RegisterMetadataTags_append_only (h : Host) (Tags : List FName) :
    h.MetaDataTagsForAssetRegistry ⊆
      (RegisterMetadataTags h Tags).MetaDataTagsForAssetRegistry := by
  intro n hn
  rw [register_mem]
  exact Or.inl hn

/-- C10: registration composes: registering `A` and then `B` gives the same
state as one registration of `A` followed by `B`, and the same state as
registering `B` and then `A`. -/
theorem RegisterMetadataTags_compose (h : Host) (A B : List FName) :
    RegisterMetadataTags (RegisterMetadataTags h A) B = RegisterMetadataTags h (A ++ B) ∧
    RegisterMetadataTags (RegisterMetadataTags h A) B =
      RegisterMetadataTags (RegisterMetadataTags h B) A := by
  constructor
  · apply Host.ext_fields
    · simp only [register_tags, List.foldl_append]
    · rfl
    · rfl
  · apply Host.ext_fields
    · ext n
      simp only [register_mem]
      tauto
    · rfl
    · rfl

/-! ## Removal from the user preferences -/

/-- C6: when the Editor Utility subsystem is available, `RemoveEUWFromUserPrefs`
completes and leaves a loaded-UI collection with no entry equal to the widget,
in which every other entry is still present, as often as before and in the
original relative order; if the widget was not in the collection, the
collection is unchanged. -/
theorem RemoveEUWFromUserPrefs_LoadedUIs (h : Host) (w : WidgetRef)
    (EUS : UEditorUtilitySubsystem) (hs : h.GetEditorSubsystem = some EUS) :
    ∃ h1 EUS1, RemoveEUWFromUserPrefs h w = some h1 ∧
      h1.GetEditorSubsystem = some EUS1 ∧
      w ∉ EUS1.LoadedUIs ∧
      EUS1.LoadedUIs.Sublist EUS.LoadedUIs ∧
      (∀ x, x ≠ w → EUS1.LoadedUIs.count x = EUS.LoadedUIs.count x) ∧
      EUS1.LoadedUIs = EUS.LoadedUIs.filter (fun x => decide (x ≠ w)) ∧
      (w ∉ EUS.LoadedUIs → EUS1.LoadedUIs = EUS.LoadedUIs) :=
  ⟨_, ⟨TArray.Remove EUS.LoadedUIs w⟩, remove_of_lookup h w EUS hs, rfl,
    remove_not_mem _ _, remove_sublist _ _, fun x hx => remove_count _ _ x hx,
    remove_eq_filter _ _, fun hw => remove_of_not_mem _ _ hw⟩

theorem RemoveEUWFromUserPrefs_LoadedUIs_witness :
    editorHost.GetEditorSubsystem = some ⟨[⟨1⟩, ⟨2⟩, ⟨1⟩, ⟨3⟩]⟩ ∧
    ∃ h1 EUS1, RemoveEUWFromUserPrefs editorHost ⟨1⟩ = some h1 ∧
      h1.GetEditorSubsystem = some EUS1 ∧
      (⟨1⟩ : WidgetRef) ∉ EUS1.LoadedUIs ∧
      EUS1.LoadedUIs.Sublist [⟨1⟩, ⟨2⟩, ⟨1⟩, ⟨3⟩] ∧
      (∀ x : WidgetRef, x ≠ ⟨1⟩ →
        EUS1.LoadedUIs.count x = ([⟨1⟩, ⟨2⟩, ⟨1⟩, ⟨3⟩] : List WidgetRef).count x) ∧
      EUS1.LoadedUIs =
        ([⟨1⟩, ⟨2⟩, ⟨1⟩, ⟨3⟩] : List WidgetRef).filter (fun x => decide (x ≠ ⟨1⟩)) ∧
      ((⟨1⟩ : WidgetRef) ∉ ([⟨1⟩, ⟨2⟩, ⟨1⟩, ⟨3⟩] : List WidgetRef) →
        EUS1.LoadedUIs = [⟨1⟩, ⟨2⟩, ⟨1⟩, ⟨3⟩]) :=
  ⟨by decide,
   RemoveEUWFromUserPrefs_LoadedUIs editorHost ⟨1⟩ ⟨[⟨1⟩, ⟨2⟩, ⟨1⟩, ⟨3⟩]⟩ (by decide)⟩

/-- C7: when the Editor Utility subsystem is available, `RemoveEUWFromUserPrefs`
saves the configuration exactly once, after the removal: the sequence of
configuration writes grows by one entry, which is the in-memory loaded-UI
collection after the removal, so the persisted collection equals it and does not
contain the widget. This holds whether or not the widget was in the
collection. -/
theorem RemoveEUWFromUserPrefs_saves (h : Host) (w : WidgetRef)
    (EUS : UEditorUtilitySubsystem) (hs : h.GetEditorSubsystem = some EUS) :
    ∃ h1 EUS1, RemoveEUWFromUserPrefs h w = some h1 ∧
      h1.GetEditorSubsystem = some EUS1 ∧
      EUS1.LoadedUIs = TArray.Remove EUS.LoadedUIs w ∧
      h1.ConfigWrites = EUS1.LoadedUIs :: h.ConfigWrites ∧
      h1.ConfigWrites.length = h.ConfigWrites.length + 1 ∧
      h1.PersistedLoadedUIs = some EUS1.LoadedUIs ∧
      w ∉ EUS1.LoadedUIs :=
  ⟨_, ⟨TArray.Remove EUS.LoadedUIs w⟩, remove_of_lookup h w EUS hs, rfl, rfl, rfl, rfl, rfl,
    remove_not_mem _ _⟩

theorem RemoveEUWFromUserPrefs_saves_witness :
    editorHost.GetEditorSubsystem = some ⟨[⟨1⟩, ⟨2⟩, ⟨1⟩, ⟨3⟩]⟩ ∧
    ∃ h1 EUS1, RemoveEUWFromUserPrefs editorHost ⟨4⟩ = some h1 ∧
      h1.GetEditorSubsystem = some EUS1 ∧
      EUS1.LoadedUIs = TArray.Remove [⟨1⟩, ⟨2⟩, ⟨1⟩, ⟨3⟩] ⟨4⟩ ∧
      h1.ConfigWrites = EUS1.LoadedUIs :: editorHost.ConfigWrites ∧
      h1.ConfigWrites.length = editorHost.ConfigWrites.length + 1 ∧
      h1.PersistedLoadedUIs = some EUS1.LoadedUIs ∧
      (⟨4⟩ : WidgetRef) ∉ EUS1.LoadedUIs :=
  ⟨by decide,
   RemoveEUWFromUserPrefs_saves editorHost ⟨4⟩ ⟨[⟨1⟩, ⟨2⟩, ⟨1⟩, ⟨3⟩]⟩ (by decide)⟩

/-- C8: `RemoveEUWFromUserPrefs` checks nothing: with the subsystem lookup an
optional value, the operation faults exactly when the lookup finds no Editor
Utility subsystem, and it completes, for every widget reference, exactly when
the lookup finds one. -/
theorem RemoveEUWFromUserPrefs_fault_iff (h : Host) (w : WidgetRef) :
    (RemoveEUWFromUserPrefs h w = none ↔ h.GetEditorSubsystem = none) ∧
    (RemoveEUWFromUserPrefs h w).isSome = h.GetEditorSubsystem.isSome := by
  have key := remove_eq_none_iff h w
  refine ⟨key, ?_⟩
  cases hr : RemoveEUWFromUserPrefs h w with
  | none => simp [key.mp hr]
  | some h1 =>
    cases hl : h.GetEditorSubsystem with
    | none => rw [key.mpr hl] at hr; cases hr
    | some EUS => rfl

/-! ## Independence of the two operations -/

/-- C9: `RegisterMetadataTags` leaves the editor, with its loaded-UI collection,
and the configuration writes unchanged; `RemoveEUWFromUserPrefs` leaves the
global tag set unchanged; and the two calls give the same final state in either
order. -/
theorem RegisterMetadataTags_RemoveEUWFromUserPrefs_comm (h : Host) (Tags : List FName)
    (w : WidgetRef) :
    (RegisterMetadataTags h Tags).GEditor = h.GEditor ∧
    (RegisterMetadataTags h Tags).GetEditorSubsystem = h.GetEditorSubsystem ∧
    (RegisterMetadataTags h Tags).ConfigWrites = h.ConfigWrites ∧
    (RegisterMetadataTags h Tags).PersistedLoadedUIs = h.PersistedLoadedUIs ∧
    (∀ h1, RemoveEUWFromUserPrefs h w = some h1 →
      h1.MetaDataTagsForAssetRegistry = h.MetaDataTagsForAssetRegistry) ∧
    RemoveEUWFromUserPrefs (RegisterMetadataTags h Tags) w =
      (RemoveEUWFromUserPrefs h w).map (fun h1 => RegisterMetadataTags h1 Tags) := by
  refine ⟨rfl, rfl, rfl, rfl, ?_, ?_⟩
  · intro h1 hr
    unfold RemoveEUWFromUserPrefs at hr
    cases hg : h.GEditor with
    | none => simp [hg] at hr
    | some ed =>
      cases he : ed.EditorUtilitySubsystem with
      | none => simp [hg, he] at hr
      | some EUS =>
        simp only [hg, he, Option.some.injEq] at hr
        rw [← hr]
  · unfold RemoveEUWFromUserPrefs
    rw [register_GEditor]
    cases hg : h.GEditor with
    | none => rfl
    | some ed =>
      cases he : ed.EditorUtilitySubsystem with
      | none => simp [he]
      | some EUS => simp [he, RegisterMetadataTags]

theorem RegisterMetadataTags_RemoveEUWFromUserPrefs_comm_witness :
    RemoveEUWFromUserPrefs editorHost ⟨1⟩ = some editorHostRemoved ∧
    editorHostRemoved.MetaDataTagsForAssetRegistry = editorHost.MetaDataTagsForAssetRegistry :=
  ⟨by decide,
   (RegisterMetadataTags_RemoveEUWFromUserPrefs_comm editorHost sampleTags ⟨1⟩).2.2.2.2.1
     editorHostRemoved (by decide)⟩

end MasterMaterialSystem
